import Mathlib

/-!
Verification of the DeepLabCut pose-estimation model-assembly layer
(`deeplabcut/pose_estimation_pytorch/models/`): `PoseModel` loss aggregation and
build-time config handling (`model.py`), `filter_state_dict` (`model.py`),
`HeatmapHead` / `DeconvModule` construction, forward and weight conversion
(`heads/simple_head.py`), and `_build_detector` (`detectors/base.py`).

Python dicts are embedded as association lists of key/value pairs in insertion
order; dict item assignment replaces the value stored at an existing key and
otherwise appends.  Python strings are embedded through their character lists
(`String.data`), with the string operations the code uses (`split(".")`,
`".".join`, `startswith`) modelled recursively so that every definition is
executable by the kernel.  Exceptions (KeyError, IndexError, ValueError) are
embedded as `Option`/`Except` failures.
-/

/-! ## Python dicts as association lists -/

/-- Lookup in a Python dict embedded as an association list: the value stored at
key `k`, or `none` (a KeyError site) when the key is absent. -/
def dictGet {α : Type} (d : List (String × α)) (k : String) : Option α :=
  (d.find? (fun kv => kv.1 == k)).map (fun kv => kv.2)

/-- Python `k in d`. -/
def containsKey {α : Type} (d : List (String × α)) (k : String) : Bool :=
  d.any (fun kv => kv.1 == k)

/-- Python dict item assignment `d[k] = v`: replaces the value at an existing
key, keeping its position, and otherwise appends the new binding at the end. -/
def dictSet {α : Type} (d : List (String × α)) (k : String) (v : α) :
    List (String × α) :=
  if containsKey d k then d.map (fun kv => if kv.1 == k then (k, v) else kv)
  else d ++ [(k, v)]

/-! ### Lookup/update lemmas for the dict embedding -/

theorem fst_setEntry_beq {α : Type} (k k' : String) (v : α) (kv : String × α) :
    ((if kv.1 == k then (k, v) else kv).1 == k') = (kv.1 == k') := by
  by_cases hb : kv.1 == k
  · have : kv.1 = k := by simpa using hb
    simp [hb, this]
  · simp [hb]

theorem dictGet_dictSet_self {α : Type} (d : List (String × α)) (k : String)
    (v : α) : dictGet (dictSet d k v) k = some v := by
  unfold dictSet
  by_cases h : containsKey d k
  · rw [if_pos h]
    unfold dictGet
    rw [List.find?_map]
    have hp : ((fun kv : String × α => kv.1 == k) ∘
        (fun kv => if kv.1 == k then (k, v) else kv))
        = fun kv : String × α => kv.1 == k := by
      funext kv
      exact fst_setEntry_beq k k v kv
    rw [hp]
    rcases hf : d.find? (fun kv => kv.1 == k) with _ | kv
    · exfalso
      rcases List.any_eq_true.mp h with ⟨kv, hmem, hkv⟩
      have hs : (d.find? (fun kv => kv.1 == k)).isSome :=
        List.find?_isSome.mpr ⟨kv, hmem, hkv⟩
      rw [hf] at hs
      simp at hs
    · have hkv' : kv.1 = k := by simpa using List.find?_some hf
      simp [hf, hkv']
  · rw [if_neg h]
    unfold dictGet
    rw [List.find?_append]
    have hnone : d.find? (fun kv => kv.1 == k) = none := by
      rcases hf : d.find? (fun kv => kv.1 == k) with _ | kv
      · exact hf
      · exfalso
        apply h
        have hmem := List.mem_of_find?_eq_some hf
        have hkv := List.find?_some hf
        exact List.any_eq_true.mpr ⟨kv, hmem, hkv⟩
    simp [hnone]

theorem dictGet_dictSet_ne {α : Type} (d : List (String × α)) (k k' : String)
    (v : α) (h : k' ≠ k) : dictGet (dictSet d k v) k' = dictGet d k' := by
  unfold dictSet
  by_cases hc : containsKey d k
  · rw [if_pos hc]
    unfold dictGet
    rw [List.find?_map]
    have hp : ((fun kv : String × α => kv.1 == k') ∘
        (fun kv => if kv.1 == k then (k, v) else kv))
        = fun kv : String × α => kv.1 == k' := by
      funext kv
      exact fst_setEntry_beq k k' v kv
    rw [hp]
    rcases hf : d.find? (fun kv => kv.1 == k') with _ | kv
    · simp [hf]
    · have hkv' : kv.1 = k' := by simpa using List.find?_some hf
      simp [hf, hkv', h]
  · rw [if_neg hc]
    unfold dictGet
    rw [List.find?_append]
    have htail : [(k, v)].find? (fun kv => kv.1 == k') = none := by
      have hne : ((k, v).1 == k') = false := by
        simp
        exact fun hk => h hk.symm
      simp [List.find?, hne]
    rw [htail]
    rcases hf : d.find? (fun kv => kv.1 == k') with _ | kv <;> simp

theorem dictGet_dictSet_isSome_of {α : Type} (d : List (String × α))
    (k k' : String) (v : α) (h : (dictGet d k').isSome) :
    (dictGet (dictSet d k v) k').isSome := by
  by_cases hk : k' = k
  · subst hk
    rw [dictGet_dictSet_self]
    rfl
  · rw [dictGet_dictSet_ne d k k' v hk]
    exact h

/-! ## Python string operations used by the code -/

/-- Python `s.split(".")` on the character list of a string. -/
def pySplitDot : List Char → List (List Char)
  | [] => [[]]
  | c :: rest =>
    match pySplitDot rest with
    | [] => []
    | s :: ss => if c = '.' then [] :: s :: ss else (c :: s) :: ss

/-- Python `".".join(parts)` on character lists. -/
def pyJoinDot : List (List Char) → List Char
  | [] => []
  | [s] => s
  | s :: ss => s ++ '.' :: pyJoinDot ss

/-- Python `".".join(k.split(".")[1:])`: drops the first dotted segment of a
key, exactly as `filter_state_dict` rewrites retained keys. -/
def stripFirstSegment (k : String) : String :=
  String.mk (pyJoinDot ((pySplitDot k.data).drop 1))

/-- Python `k.startswith(p)`: a plain substring-prefix test on characters. -/
def pyStartsWith (k p : String) : Bool :=
  List.isPrefixOf p.data k.data

/-! ## `filter_state_dict` (model.py lines 226-250) -/

/-- Embeds `filter_state_dict(state_dict, module)` from `model.py`: the dict
comprehension iterates the entries in order and, for each key satisfying
`k.startswith(module)`, assigns the value into the fresh result dict under
`".".join(k.split(".")[1:])` — a dict item assignment, so when two retained
keys strip to the same new key the later entry overwrites the earlier one. -/
def filter_state_dict {α : Type} (state_dict : List (String × α))
    (module : String) : List (String × α) :=
  state_dict.foldl
    (fun acc kv =>
      if pyStartsWith kv.1 module then
        dictSet acc (stripFirstSegment kv.1) kv.2
      else acc) []

/-! ## C1 theorems -/

/-- Claim C1 counterexample: on the input `{"backbone.a": 1, "backbonex.b": 2,
"head.c": 3}` with module `"backbone"`, `filter_state_dict` returns
`{"a": 1, "b": 2}`, not exactly `{"a": 1}`: the code's `k.startswith(module)`
test is a substring-prefix match, so `"backbonex.b"` is retained (as `"b"`),
refuting the claim that the first dotted path segment is compared for equality
and that `"backbonex.b"` is excluded. -/
theorem filter_state_dict_substring_counterexample :
    filter_state_dict
        [("backbone.a", (1 : ℤ)), ("backbonex.b", 2), ("head.c", 3)] "backbone"
      = [("a", 1), ("b", 2)] ∧
    dictGet (filter_state_dict
        [("backbone.a", (1 : ℤ)), ("backbonex.b", 2), ("head.c", 3)] "backbone")
        "b" = some 2 := by
  constructor
  · decide
  · decide

theorem filter_state_dict_fold_lookup {α : Type} (module k : String) :
    ∀ (l acc : List (String × α)),
      dictGet (l.foldl
          (fun acc kv =>
            if pyStartsWith kv.1 module then
              dictSet acc (stripFirstSegment kv.1) kv.2
            else acc) acc) k
        = ((l.filter (fun kv => pyStartsWith kv.1 module &&
              (stripFirstSegment kv.1 == k))).getLast?).elim
            (dictGet acc k) (fun kv => some kv.2) := by
  intro l
  induction l with
  | nil => intro acc; simp
  | cons kv l ih =>
    intro acc
    rw [List.foldl_cons]
    by_cases hc1 : pyStartsWith kv.1 module = true
    · rw [if_pos hc1]
      by_cases hc2 : (stripFirstSegment kv.1 == k) = true
      · have hpred : (pyStartsWith kv.1 module &&
            (stripFirstSegment kv.1 == k)) = true := by rw [hc1, hc2]; rfl
        rw [List.filter_cons, if_pos hpred]
        rcases hfl : l.filter (fun kv => pyStartsWith kv.1 module &&
            (stripFirstSegment kv.1 == k)) with _ | ⟨h₀, t⟩
        · have hk : stripFirstSegment kv.1 = k := by simpa using hc2
          rw [ih, hfl, hk]
          simp [dictGet_dictSet_self]
        · rw [ih, hfl, List.getLast?_cons_cons]
          rcases hgl : (h₀ :: t).getLast? with _ | kv'
          · exact absurd (List.getLast?_eq_none_iff.mp hgl) (by simp)
          · rfl
      · have h2f : (stripFirstSegment kv.1 == k) = false := by simpa using hc2
        have hpred : (pyStartsWith kv.1 module &&
            (stripFirstSegment kv.1 == k)) = false := by
          rw [hc1, h2f]
          rfl
        rw [List.filter_cons, if_neg (by simp [hpred])]
        rw [ih]
        have hkne : k ≠ stripFirstSegment kv.1 := by
          intro he
          rw [he] at h2f
          simp at h2f
        rw [dictGet_dictSet_ne acc (stripFirstSegment kv.1) k kv.2 hkne]
    · rw [if_neg hc1]
      have h1f : pyStartsWith kv.1 module = false := by simpa using hc1
      have hpred : (pyStartsWith kv.1 module &&
          (stripFirstSegment kv.1 == k)) = false := by
        rw [h1f]
        rfl
      rw [List.filter_cons, if_neg (by simp [hpred])]
      exact ih acc

/-- Claim C1 (amended): `filter_state_dict(state_dict, module)` keeps exactly
the entries whose key starts with the string `module` (a substring-prefix
match, so a key such as `"backbonex.b"` is also retained for module
`"backbone"`), stripping the first dotted segment from every retained key;
when several retained keys strip to the same new key, the later entry
overwrites the earlier one (dict-comprehension item assignment): the value
found under `k` in the result is the value of the last retained entry whose
stripped key is `k`. -/
theorem filter_state_dict_amended {α : Type} (state_dict : List (String × α))
    (module k : String) :
    dictGet (filter_state_dict state_dict module) k
      = ((state_dict.filter (fun kv => pyStartsWith kv.1 module &&
            (stripFirstSegment kv.1 == k))).getLast?).map (fun kv => kv.2) := by
  unfold filter_state_dict
  rw [filter_state_dict_fold_lookup module k state_dict []]
  have hnil : dictGet ([] : List (String × α)) k = none := rfl
  rw [hnil]
  cases (state_dict.filter (fun kv => pyStartsWith kv.1 module &&
      (stripFirstSegment kv.1 == k))).getLast? <;> rfl

/-! ## `PoseModel.get_loss` (model.py lines 81-96) -/

/-- The body of the loop in `PoseModel.get_loss` for one head: look up
`outputs[name]` and `targets[name]` (KeyError when absent), compute
`head_losses = head.get_loss(...)`, append `head_losses["total_loss"]`
(KeyError when absent) to the running list, and store every per-head entry
under `"{name}_{k}"`. -/
def getLossStep {α β : Type} (outputs : List (String × α))
    (targets : List (String × β)) (acc : List ℚ × List (String × ℚ))
    (h : String × (α → β → List (String × ℚ))) :
    Option (List ℚ × List (String × ℚ)) := do
  let o ← dictGet outputs h.1
  let t ← dictGet targets h.1
  let head_losses := h.2 o t
  let tl ← dictGet head_losses "total_loss"
  pure (acc.1 ++ [tl],
    head_losses.foldl (fun ls kv => dictSet ls (h.1 ++ "_" ++ kv.1) kv.2) acc.2)

/-- Embeds `PoseModel.get_loss`.  The heads mapping carries, for each head
name, that head's own `get_loss` function (heads are external components built
by the registry; only the loss mappings they return matter here).  After the
loop, `losses["total_loss"]` is set to `torch.mean(torch.stack(total_losses))`,
the arithmetic mean of the collected per-head values; `torch.stack` of an
empty list raises, hence `none` when there are no heads. -/
def PoseModel.get_loss {α β : Type}
    (heads : List (String × (α → β → List (String × ℚ))))
    (outputs : List (String × α)) (targets : List (String × β)) :
    Option (List (String × ℚ)) := do
  let acc ← heads.foldlM (getLossStep outputs targets) ([], [])
  if acc.1.isEmpty then none
  else
    pure (dictSet acc.2 "total_loss"
      (acc.1.foldl (· + ·) 0 / (acc.1.length : ℚ)))

/-- The `total_loss` value one head contributes inside `PoseModel.get_loss`
(defaulting to 0 when a lookup fails; the hypotheses of the theorem below rule
the default out). -/
def headTotal {α β : Type} (outputs : List (String × α))
    (targets : List (String × β))
    (h : String × (α → β → List (String × ℚ))) : ℚ :=
  ((dictGet outputs h.1).bind (fun o =>
    (dictGet targets h.1).bind (fun t =>
      dictGet (h.2 o t) "total_loss"))).getD 0

/-! ### Lemmas about the renaming fold inside `get_loss` -/

theorem getLoss_rename_mono (n : String) (hl : List (String × ℚ)) :
    ∀ (acc : List (String × ℚ)) (k : String), (dictGet acc k).isSome →
      (dictGet (hl.foldl
        (fun ls kv => dictSet ls (n ++ "_" ++ kv.1) kv.2) acc) k).isSome := by
  induction hl with
  | nil => intro acc k h; exact h
  | cons kv rest ih =>
    intro acc k h
    rw [List.foldl_cons]
    exact ih _ k (dictGet_dictSet_isSome_of acc (n ++ "_" ++ kv.1) k kv.2 h)

theorem getLoss_rename_covers (n : String) (hl : List (String × ℚ)) :
    ∀ (acc : List (String × ℚ)) (kv : String × ℚ), kv ∈ hl →
      (dictGet (hl.foldl
        (fun ls kv => dictSet ls (n ++ "_" ++ kv.1) kv.2) acc)
        (n ++ "_" ++ kv.1)).isSome := by
  induction hl with
  | nil => intro acc kv h; exact absurd h (List.not_mem_nil kv)
  | cons kv₀ rest ih =>
    intro acc kv h
    rw [List.foldl_cons]
    rcases List.mem_cons.mp h with heq | hmem
    · subst heq
      apply getLoss_rename_mono n rest
      rw [dictGet_dictSet_self]
      rfl
    · exact ih _ kv hmem

theorem getLoss_foldlM {α β : Type} (outputs : List (String × α))
    (targets : List (String × β)) :
    ∀ (heads : List (String × (α → β → List (String × ℚ)))),
      (∀ h ∈ heads, ∃ o t, dictGet outputs h.1 = some o ∧
        dictGet targets h.1 = some t ∧
        (dictGet (h.2 o t) "total_loss").isSome) →
      ∀ (ts : List ℚ) (ls : List (String × ℚ)),
      ∃ ls', heads.foldlM (getLossStep outputs targets) (ts, ls)
          = some (ts ++ heads.map (headTotal outputs targets), ls') ∧
        (∀ k, (dictGet ls k).isSome → (dictGet ls' k).isSome) ∧
        (∀ h ∈ heads, ∀ o t, dictGet outputs h.1 = some o →
          dictGet targets h.1 = some t →
          ∀ kv ∈ h.2 o t, (dictGet ls' (h.1 ++ "_" ++ kv.1)).isSome) := by
  intro heads
  induction heads with
  | nil =>
    intro _ ts ls
    refine ⟨ls, ?_, fun k h => h, fun h hm => absurd hm (List.not_mem_nil h)⟩
    simp
  | cons h hs ih =>
    intro hok ts ls
    rcases hok h (List.mem_cons_self h hs) with ⟨o, t, ho, ht, htl⟩
    rcases Option.isSome_iff_exists.mp htl with ⟨tl, htl'⟩
    have hstep : getLossStep outputs targets (ts, ls) h
        = some (ts ++ [tl],
            (h.2 o t).foldl
              (fun ls kv => dictSet ls (h.1 ++ "_" ++ kv.1) kv.2) ls) := by
      simp [getLossStep, ho, ht, htl']
    rcases ih (fun h' hm => hok h' (List.mem_cons_of_mem h hm)) (ts ++ [tl])
        ((h.2 o t).foldl
          (fun ls kv => dictSet ls (h.1 ++ "_" ++ kv.1) kv.2) ls)
      with ⟨ls', hfold, hmono, hcov⟩
    have hht : headTotal outputs targets h = tl := by
      simp [headTotal, ho, ht, htl']
    refine ⟨ls', ?_, ?_, ?_⟩
    · rw [List.foldlM_cons, hstep]
      simp [hfold, hht, List.append_assoc]
    · intro k hk
      apply hmono
      exact getLoss_rename_mono h.1 (h.2 o t) ls k hk
    · intro h' hm o' t' ho' ht' kv hkv
      rcases List.mem_cons.mp hm with heq | hmem
      · rw [heq] at ho' ht' hkv ⊢
        rw [ho] at ho'
        rw [ht] at ht'
        obtain rfl : o = o' := Option.some_inj.mp ho'
        obtain rfl : t = t' := Option.some_inj.mp ht'
        apply hmono
        exact getLoss_rename_covers h.1 (h.2 o t) ls kv hkv
      · exact hcov h' hmem o' t' ho' ht' kv hkv

/-! ## C2 theorem -/

/-- Claim C2: for every `PoseModel` whose heads each return a loss mapping
containing a `"total_loss"` key (and whose outputs/targets contain every head
name), `get_loss` returns a mapping in which every per-head loss key `k` of
the head named `n` appears under `"{n}_{k}"`, and whose top-level
`"total_loss"` is the unweighted arithmetic mean of the heads' individual
`"total_loss"` values. -/
theorem PoseModel.get_loss_mean_and_renamed_keys {α β : Type}
    (heads : List (String × (α → β → List (String × ℚ))))
    (outputs : List (String × α)) (targets : List (String × β))
    (hne : heads ≠ [])
    (hok : ∀ h ∈ heads, ∃ o t, dictGet outputs h.1 = some o ∧
      dictGet targets h.1 = some t ∧
      (dictGet (h.2 o t) "total_loss").isSome) :
    ∃ L, PoseModel.get_loss heads outputs targets = some L ∧
      dictGet L "total_loss"
        = some ((heads.map (headTotal outputs targets)).foldl (· + ·) 0
            / (heads.length : ℚ)) ∧
      (∀ h ∈ heads, ∀ o t, dictGet outputs h.1 = some o →
        dictGet targets h.1 = some t →
        ∀ kv ∈ h.2 o t, (dictGet L (h.1 ++ "_" ++ kv.1)).isSome) := by
  rcases getLoss_foldlM outputs targets heads hok [] [] with
    ⟨ls', hfold, _, hcov⟩
  have hmapne : heads.map (headTotal outputs targets) ≠ [] := by
    intro hmap
    exact hne (List.map_eq_nil_iff.mp hmap)
  refine ⟨dictSet ls' "total_loss"
      ((heads.map (headTotal outputs targets)).foldl (· + ·) 0
        / (heads.length : ℚ)), ?_, ?_, ?_⟩
  · unfold PoseModel.get_loss
    rw [hfold]
    have hempty : (heads.map (headTotal outputs targets)).isEmpty = false := by
      rcases hmap : heads.map (headTotal outputs targets) with _ | ⟨x, xs⟩
      · exact absurd hmap hmapne
      · rfl
    simp [hempty, List.length_map]
    exact hne
  · exact dictGet_dictSet_self ls' "total_loss" _
  · intro h hm o t ho ht kv hkv
    exact dictGet_dictSet_isSome_of ls' "total_loss" _ _
      (hcov h hm o t ho ht kv hkv)

/-- Witness for C2: two heads returning total losses 2 and 4; the top-level
total loss is their mean 3 and the renamed keys `head1_total_loss`,
`head2_total_loss` are present. -/
theorem PoseModel.get_loss_mean_and_renamed_keys_witness :
    ∃ L, PoseModel.get_loss
        [("head1", fun (_ : Unit) (_ : Unit) => [("total_loss", (2 : ℚ))]),
         ("head2", fun _ _ => [("total_loss", (4 : ℚ))])]
        [("head1", ()), ("head2", ())] [("head1", ()), ("head2", ())]
        = some L ∧
      dictGet L "total_loss" = some 3 ∧
      (dictGet L "head1_total_loss").isSome ∧
      (dictGet L "head2_total_loss").isSome := by
  rcases PoseModel.get_loss_mean_and_renamed_keys
      [("head1", fun (_ : Unit) (_ : Unit) => [("total_loss", (2 : ℚ))]),
       ("head2", fun _ _ => [("total_loss", (4 : ℚ))])]
      [("head1", ()), ("head2", ())] [("head1", ()), ("head2", ())]
      (by simp)
      (by
        intro h hm
        rcases List.mem_cons.mp hm with heq | hm2
        · subst heq
          exact ⟨(), (), by decide, by decide, by decide⟩
        · rcases List.mem_cons.mp hm2 with heq | hm3
          · subst heq
            exact ⟨(), (), by decide, by decide, by decide⟩
          · exact absurd hm3 (List.not_mem_nil h)) with
    ⟨L, hL, hmean, hcov⟩
  refine ⟨L, hL, ?_, ?_, ?_⟩
  · rw [hmean]
    congr 1
    have hmap : List.map
        (headTotal [("head1", ()), ("head2", ())] [("head1", ()), ("head2", ())])
        [("head1", fun (_ : Unit) (_ : Unit) => [("total_loss", (2 : ℚ))]),
         ("head2", fun _ _ => [("total_loss", (4 : ℚ))])] = [2, 4] := by
      decide
    rw [hmap]
    norm_num
  · have := hcov ("head1", fun (_ : Unit) (_ : Unit) => [("total_loss", (2 : ℚ))])
      (by simp) () () (by decide) (by decide) ("total_loss", 2) (by decide)
    simpa using this
  · have := hcov ("head2", fun (_ : Unit) (_ : Unit) => [("total_loss", (4 : ℚ))])
      (by simp) () () (by decide) (by decide) ("total_loss", 4) (by decide)
    simpa using this

/-! ## Tensors and state dicts -/

/-- A torch tensor, embedded as a rose tree: a 0-d tensor is a scalar entry
(an exact value standing for the stored number), and an n-d tensor is the list
of its (n-1)-d slices along the first dimension. -/
inductive Tensor where
  | scalar : ℤ → Tensor
  | vec : List Tensor → Tensor

/-- torch advanced indexing `t[conversion]` with an integer index tensor:
selects the given slices along the first dimension.  Fails (IndexError) when
an index is out of range, or when the tensor is 0-d. -/
def tIndex (t : Tensor) (conversion : List ℕ) : Option Tensor :=
  match t with
  | .scalar _ => none
  | .vec ts => (conversion.mapM (fun i => ts[i]?)).map Tensor.vec

/-- torch indexing `t[:, conversion]`: selects along the second dimension,
i.e. applies `tIndex` inside every first-dimension slice. -/
def tIndexDim1 (t : Tensor) (conversion : List ℕ) : Option Tensor :=
  match t with
  | .scalar _ => none
  | .vec ts => (ts.mapM (fun row => tIndex row conversion)).map Tensor.vec

/-- A state dict: a Python dict from dotted parameter paths to tensors. -/
abbrev StateDict := List (String × Tensor)

/-! ## `DeconvModule.convert_weights` (simple_head.py lines 171-209) -/

def finalConvWeightKey (pfx : String) : String := pfx ++ "final_conv.weight"

def finalConvBiasKey (pfx : String) : String := pfx ++ "final_conv.bias"

def deconvWeightKey (pfx : String) (i : ℕ) : String :=
  pfx ++ "deconv_layers." ++ Nat.repr i ++ ".weight"

def deconvBiasKey (pfx : String) (i : ℕ) : String :=
  pfx ++ "deconv_layers." ++ Nat.repr i ++ ".bias"

/-- The scanning loop of `DeconvModule.convert_weights`
(`while f"{module_prefix}deconv_layers.{next_index}.weight" in state_dict:`):
starting from `i`, advance while the weight key for the current index is
present.  The Python loop is bounded by the finiteness of the dict — the keys
for distinct indices are distinct strings, so at most `sd.length` consecutive
indices can be present — which the `fuel` argument makes explicit. -/
def scanDeconv (sd : StateDict) (pfx : String) : ℕ → ℕ → ℕ
  | 0, i => i
  | fuel + 1, i =>
    if containsKey sd (deconvWeightKey pfx i) then scanDeconv sd pfx fuel (i + 1)
    else i

/-- The value of `next_index` after the scanning loop: the first index whose
deconv weight key is missing from the state dict. -/
def nextIndex (sd : StateDict) (pfx : String) : ℕ :=
  scanDeconv sd pfx (sd.length + 1) 0

/-- Embeds the static method `DeconvModule.convert_weights(state_dict,
module_prefix, conversion)`.  Python mutates `state_dict` in place through
dict item assignment and returns that same object, so the embedding returns
the final state of the caller's dict; `none` stands for an uncaught exception
(KeyError on a missing bias key, IndexError on an out-of-range conversion
index).  If the final convolution weight key is present, its weight is
reindexed along the first dimension and its bias directly; otherwise the last
consecutively-indexed deconv layer (if any) has its weight reindexed along the
second dimension (ConvTranspose2d stores (in-channels, out-channels, ...)) and
its bias directly. -/
def DeconvModule.convert_weights (state_dict : StateDict) (pfx : String)
    (conversion : List ℕ) : Option StateDict :=
  if containsKey state_dict (finalConvWeightKey pfx) then do
    let w ← dictGet state_dict (finalConvWeightKey pfx)
    let w' ← tIndex w conversion
    let sd1 := dictSet state_dict (finalConvWeightKey pfx) w'
    let b ← dictGet sd1 (finalConvBiasKey pfx)
    let b' ← tIndex b conversion
    pure (dictSet sd1 (finalConvBiasKey pfx) b')
  else
    match nextIndex state_dict pfx with
    | 0 => pure state_dict
    | li + 1 => do
      let w ← dictGet state_dict (deconvWeightKey pfx li)
      let w' ← tIndexDim1 w conversion
      let sd1 := dictSet state_dict (deconvWeightKey pfx li) w'
      let b ← dictGet sd1 (deconvBiasKey pfx li)
      let b' ← tIndex b conversion
      pure (dictSet sd1 (deconvBiasKey pfx li) b')

/-! ## `HeatmapHead.convert_weights` (simple_head.py lines 57-81) -/

/-- The `locref_conversion` tensor built inside `HeatmapHead.convert_weights`:
`torch.stack([2 * conversion, 2 * conversion + 1], dim=1).reshape(-1)` —
the two elementwise-mapped copies of the conversion tensor are paired up
columnwise and the resulting matrix is flattened row-major. -/
def locref_conversion (conversion : List ℕ) : List ℕ :=
  (((conversion.map (fun i => 2 * i)).zip
    (conversion.map (fun i => 2 * i + 1))).flatMap (fun p => [p.1, p.2]))

/-- Embeds the static method `HeatmapHead.convert_weights`: converts the
heatmap deconv stack with the conversion tensor itself, then the locref stack
with the expanded `locref_conversion`. -/
def HeatmapHead.convert_weights (state_dict : StateDict) (pfx : String)
    (conversion : List ℕ) : Option StateDict := do
  let sd1 ← DeconvModule.convert_weights state_dict (pfx ++ "heatmap_head.")
    conversion
  DeconvModule.convert_weights sd1 (pfx ++ "locref_head.")
    (locref_conversion conversion)

/-! ### Lemmas about Option-valued mapM and tensor indexing -/

theorem mapM_option_spec {α β : Type} (g : α → Option β) :
    ∀ (l : List α) (r : List β), l.mapM g = some r →
      r.length = l.length ∧ ∀ j : ℕ, (l[j]?.bind g) = r[j]? := by
  intro l
  induction l with
  | nil =>
    intro r h
    rw [List.mapM_nil] at h
    have hr : r = [] := (Option.some_inj.mp h).symm
    subst hr
    exact ⟨rfl, fun j => by simp⟩
  | cons a l ih =>
    intro r h
    rw [List.mapM_cons] at h
    rcases hga : g a with _ | b
    · rw [hga] at h; simp at h
    · rw [hga] at h
      rcases hml : l.mapM g with _ | r'
      · rw [hml] at h; simp at h
      · rw [hml] at h
        simp at h
        rcases ih r' hml with ⟨hlen, hget⟩
        refine ⟨?_, ?_⟩
        · rw [← h]; simp [hlen]
        · intro j
          cases j with
          | zero => rw [← h]; simp [hga]
          | succ j => rw [← h]; simpa using hget j

theorem mapM_option_isSome {α β : Type} (g : α → Option β) :
    ∀ (l : List α), (∀ a ∈ l, (g a).isSome) → ∃ r, l.mapM g = some r := by
  intro l
  induction l with
  | nil => intro _; exact ⟨[], rfl⟩
  | cons a l ih =>
    intro h
    rcases Option.isSome_iff_exists.mp (h a (List.mem_cons_self a l)) with ⟨b, hb⟩
    rcases ih (fun a' ha' => h a' (List.mem_cons_of_mem a ha')) with ⟨r', hr'⟩
    exact ⟨b :: r', by rw [List.mapM_cons, hb, hr']; rfl⟩

theorem tIndex_vec_spec (ts : List Tensor) (conversion : List ℕ)
    (h : ∀ i ∈ conversion, i < ts.length) :
    ∃ ts', tIndex (.vec ts) conversion = some (.vec ts') ∧
      ts'.length = conversion.length ∧
      ∀ (j i : ℕ), conversion[j]? = some i → ts'[j]? = ts[i]? := by
  rcases mapM_option_isSome (fun i => ts[i]?) conversion
      (fun i hi => by
        have hlt := h i hi
        simp [List.getElem?_eq_getElem hlt])
    with ⟨r, hr⟩
  rcases mapM_option_spec (fun i => ts[i]?) conversion r hr with ⟨hlen, hget⟩
  refine ⟨r, ?_, hlen, ?_⟩
  · simp only [tIndex]
    rw [hr]
    rfl
  intro j i hji
  have hj := hget j
  rw [hji] at hj
  simpa using hj.symm

/-! ### State-dict key disjointness -/

theorem containsKey_of_dictGet {α : Type} (d : List (String × α)) (k : String)
    (v : α) (h : dictGet d k = some v) : containsKey d k = true := by
  unfold dictGet at h
  rcases hf : d.find? (fun kv => kv.1 == k) with _ | kv
  · rw [hf] at h; simp at h
  · have hmem := List.mem_of_find?_eq_some hf
    have hkv := List.find?_some hf
    exact List.any_eq_true.mpr ⟨kv, hmem, hkv⟩

theorem stringAppend_right_ne (s a b : String) (h : a ≠ b) :
    s ++ a ≠ s ++ b := by
  intro he
  apply h
  apply String.ext
  have hd := congrArg String.data he
  rw [String.data_append, String.data_append] at hd
  exact List.append_cancel_left hd

theorem finalConvKeys_ne (pfx : String) :
    finalConvBiasKey pfx ≠ finalConvWeightKey pfx :=
  stringAppend_right_ne pfx "final_conv.bias" "final_conv.weight" (by decide)

theorem deconvKeys_ne (pfx : String) (i : ℕ) :
    deconvBiasKey pfx i ≠ deconvWeightKey pfx i :=
  stringAppend_right_ne (pfx ++ "deconv_layers." ++ Nat.repr i)
    ".bias" ".weight" (by decide)

/-! ### The scanning loop -/

theorem scanDeconv_spec (sd : StateDict) (pfx : String) :
    ∀ (fuel start i : ℕ), start ≤ i → i - start ≤ fuel →
      (∀ j, start ≤ j → j < i → containsKey sd (deconvWeightKey pfx j) = true) →
      containsKey sd (deconvWeightKey pfx i) = false →
      scanDeconv sd pfx fuel start = i := by
  intro fuel
  induction fuel with
  | zero =>
    intro start i h1 h2 _ _
    have hsi : start = i := by omega
    simp [scanDeconv, hsi]
  | succ fuel ih =>
    intro start i h1 h2 h3 h4
    by_cases hstart : start = i
    · subst hstart
      simp [scanDeconv, h4]
    · have hlt : start < i := by omega
      have hck := h3 start (le_refl start) hlt
      simp only [scanDeconv, hck, if_true]
      exact ih (start + 1) i (by omega) (by omega)
        (fun j hj1 hj2 => h3 j (by omega) hj2) h4

theorem nextIndex_spec (sd : StateDict) (pfx : String) (i : ℕ)
    (hbound : i ≤ sd.length)
    (hpresent : ∀ j, j < i → containsKey sd (deconvWeightKey pfx j) = true)
    (hmissing : containsKey sd (deconvWeightKey pfx i) = false) :
    nextIndex sd pfx = i :=
  scanDeconv_spec sd pfx (sd.length + 1) 0 i (Nat.zero_le i) (by omega)
    (fun j _ hj => hpresent j hj) hmissing

/-! ## C5 theorem -/

/-- Claim C5: when the state dict has a final-convolution weight of output
width `N` under the given module prefix (together with its bias, as every
convolution state dict stores), and the conversion array has values in
`[0, N)`, `DeconvModule.convert_weights` updates exactly those two entries:
the new weight's output dimension has length `conversion.length` with
`converted[j] = original[conversion[j]]` for every `j`, and the bias is
reindexed identically. -/
theorem DeconvModule.convert_weights_final_conv (sd : StateDict) (pfx : String)
    (conversion : List ℕ) (ws bs : List Tensor) (N : ℕ)
    (hw : dictGet sd (finalConvWeightKey pfx) = some (.vec ws))
    (hwlen : ws.length = N)
    (hb : dictGet sd (finalConvBiasKey pfx) = some (.vec bs))
    (hblen : bs.length = N)
    (hconv : ∀ i ∈ conversion, i < N) :
    ∃ ws' bs',
      DeconvModule.convert_weights sd pfx conversion
        = some (dictSet (dictSet sd (finalConvWeightKey pfx) (.vec ws'))
            (finalConvBiasKey pfx) (.vec bs')) ∧
      ws'.length = conversion.length ∧ bs'.length = conversion.length ∧
      (∀ (j i : ℕ), conversion[j]? = some i →
        ws'[j]? = ws[i]? ∧ bs'[j]? = bs[i]?) := by
  have hck := containsKey_of_dictGet sd _ _ hw
  rcases tIndex_vec_spec ws conversion (by rw [hwlen]; exact hconv)
    with ⟨ws', hws, hwlen', hwget⟩
  rcases tIndex_vec_spec bs conversion (by rw [hblen]; exact hconv)
    with ⟨bs', hbs, hblen', hbget⟩
  refine ⟨ws', bs', ?_, hwlen', hblen',
    fun j i hji => ⟨hwget j i hji, hbget j i hji⟩⟩
  unfold DeconvModule.convert_weights
  rw [if_pos hck]
  have hb1 : dictGet (dictSet sd (finalConvWeightKey pfx) (Tensor.vec ws'))
      (finalConvBiasKey pfx) = some (.vec bs) := by
    rw [dictGet_dictSet_ne sd (finalConvWeightKey pfx) (finalConvBiasKey pfx)
      (Tensor.vec ws') (finalConvKeys_ne pfx)]
    exact hb
  simp [hw, hws, hb1, hbs]

/-- Witness for C5 at a concrete head state dict: a final convolution of
output width 3 converted with the conversion array `[2, 0]`. -/
theorem DeconvModule.convert_weights_final_conv_witness :
    ∃ ws' bs',
      DeconvModule.convert_weights
          [("final_conv.weight", Tensor.vec [.scalar 10, .scalar 20, .scalar 30]),
           ("final_conv.bias", Tensor.vec [.scalar 1, .scalar 2, .scalar 3])]
          "" [2, 0]
        = some (dictSet (dictSet
            [("final_conv.weight", Tensor.vec [.scalar 10, .scalar 20, .scalar 30]),
             ("final_conv.bias", Tensor.vec [.scalar 1, .scalar 2, .scalar 3])]
            (finalConvWeightKey "") (.vec ws'))
            (finalConvBiasKey "") (.vec bs')) ∧
      ws'.length = 2 ∧ bs'.length = 2 ∧
      (∀ (j i : ℕ), ([2, 0] : List ℕ)[j]? = some i →
        ws'[j]? = [Tensor.scalar 10, .scalar 20, .scalar 30][i]? ∧
        bs'[j]? = [Tensor.scalar 1, .scalar 2, .scalar 3][i]?) := by
  have h := DeconvModule.convert_weights_final_conv
    [("final_conv.weight", Tensor.vec [.scalar 10, .scalar 20, .scalar 30]),
     ("final_conv.bias", Tensor.vec [.scalar 1, .scalar 2, .scalar 3])]
    "" [2, 0] [Tensor.scalar 10, .scalar 20, .scalar 30]
    [Tensor.scalar 1, .scalar 2, .scalar 3] 3 rfl rfl rfl rfl (by decide)
  simpa using h

/-! ## C3 theorem -/

/-- Claim C3: on a state dict with no final-convolution weight under the given
prefix, `DeconvModule.convert_weights` locates the last deconvolution layer by
scanning indices 0, 1, 2, ... consecutively for the highest present weight key;
when index 0 is already absent the state dict is returned unchanged, and
otherwise the located layer's bias is reindexed directly by the conversion
indices while its weight is reindexed along its second dimension (not the
first).  The `li + 1 ≤ sd.length` bound is forced by the `li + 1` distinct
weight keys the other hypotheses put into the dict. -/
theorem DeconvModule.convert_weights_deconv (sd : StateDict) (pfx : String)
    (conversion : List ℕ)
    (hnofc : containsKey sd (finalConvWeightKey pfx) = false) :
    (containsKey sd (deconvWeightKey pfx 0) = false →
      DeconvModule.convert_weights sd pfx conversion = some sd) ∧
    (∀ li, (∀ j, j ≤ li → containsKey sd (deconvWeightKey pfx j) = true) →
      containsKey sd (deconvWeightKey pfx (li + 1)) = false →
      li + 1 ≤ sd.length →
      ∀ w w' b b', dictGet sd (deconvWeightKey pfx li) = some w →
        tIndexDim1 w conversion = some w' →
        dictGet sd (deconvBiasKey pfx li) = some b →
        tIndex b conversion = some b' →
        DeconvModule.convert_weights sd pfx conversion
          = some (dictSet (dictSet sd (deconvWeightKey pfx li) w')
              (deconvBiasKey pfx li) b')) := by
  constructor
  · intro h0
    have hni : nextIndex sd pfx = 0 :=
      nextIndex_spec sd pfx 0 (Nat.zero_le _) (fun j hj => absurd hj (by omega)) h0
    unfold DeconvModule.convert_weights
    rw [if_neg (by simp [hnofc])]
    rw [hni]
    rfl
  · intro li hpres hmiss hbound w w' b b' hw htw hb htb
    have hni : nextIndex sd pfx = li + 1 :=
      nextIndex_spec sd pfx (li + 1) hbound
        (fun j hj => hpres j (by omega)) hmiss
    unfold DeconvModule.convert_weights
    rw [if_neg (by simp [hnofc])]
    rw [hni]
    have hb1 : dictGet (dictSet sd (deconvWeightKey pfx li) w')
        (deconvBiasKey pfx li) = some b := by
      rw [dictGet_dictSet_ne sd (deconvWeightKey pfx li) (deconvBiasKey pfx li)
        w' (deconvKeys_ne pfx li)]
      exact hb
    simp [hw, htw, hb1, htb]

/-- Witness for C3: a single deconv layer at index 0 (index 1 absent), with the
layer's weight reindexed along the second dimension and its bias directly, for
the conversion array `[1, 0]`. -/
theorem DeconvModule.convert_weights_deconv_witness :
    DeconvModule.convert_weights
        [("deconv_layers.0.weight", Tensor.vec [.vec [.scalar 1, .scalar 2]]),
         ("deconv_layers.0.bias", Tensor.vec [.scalar 5, .scalar 6])]
        "" [1, 0]
      = some (dictSet (dictSet
          [("deconv_layers.0.weight", Tensor.vec [.vec [.scalar 1, .scalar 2]]),
           ("deconv_layers.0.bias", Tensor.vec [.scalar 5, .scalar 6])]
          (deconvWeightKey "" 0) (Tensor.vec [.vec [.scalar 2, .scalar 1]]))
          (deconvBiasKey "" 0) (Tensor.vec [.scalar 6, .scalar 5])) := by
  have h := (DeconvModule.convert_weights_deconv
    [("deconv_layers.0.weight", Tensor.vec [.vec [.scalar 1, .scalar 2]]),
     ("deconv_layers.0.bias", Tensor.vec [.scalar 5, .scalar 6])]
    "" [1, 0] (by decide)).2 0
    (fun j hj => by
      have hj0 : j = 0 := Nat.le_zero.mp hj
      subst hj0
      decide)
    (by decide) (by decide)
    (Tensor.vec [.vec [.scalar 1, .scalar 2]])
    (Tensor.vec [.vec [.scalar 2, .scalar 1]])
    (Tensor.vec [.scalar 5, .scalar 6])
    (Tensor.vec [.scalar 6, .scalar 5])
    rfl rfl rfl rfl
  exact h

/-! ## C6 theorems -/

/-- Claim C6 counterexample: `DeconvModule.convert_weights` performs its
reindexing through dict item assignment on the state dict passed by the
caller, so the caller's dict after the call (which is also the returned dict —
Python returns the same object) differs from the dict passed in: for a
final-convolution state dict and the conversion `[1, 0]`, the final state has
the channels swapped and is not equal to the input, refuting the claim that
the input state dict is left unchanged by the call. -/
theorem DeconvModule.convert_weights_mutates_counterexample :
    DeconvModule.convert_weights
        [("final_conv.weight", Tensor.vec [.scalar 1, .scalar 2]),
         ("final_conv.bias", Tensor.vec [.scalar 3, .scalar 4])] "" [1, 0]
      = some [("final_conv.weight", Tensor.vec [.scalar 2, .scalar 1]),
              ("final_conv.bias", Tensor.vec [.scalar 4, .scalar 3])] ∧
    ([("final_conv.weight", Tensor.vec [.scalar 2, .scalar 1]),
      ("final_conv.bias", Tensor.vec [.scalar 4, .scalar 3])] : StateDict)
      ≠ [("final_conv.weight", Tensor.vec [.scalar 1, .scalar 2]),
         ("final_conv.bias", Tensor.vec [.scalar 3, .scalar 4])] := by
  constructor
  · rfl
  · intro h
    simp at h

/-- The deconv weight key for the empty module prefix starts with the
character of `"deconv_layers."`, whatever the layer index is. -/
theorem deconvWeightKey_empty_head (i : ℕ) :
    ((deconvWeightKey "" i).data).head? = some 'd' := by
  unfold deconvWeightKey
  rw [String.data_append, String.data_append]
  rw [List.head?_append, List.head?_append]
  rfl

/-- The deconv bias key for the empty module prefix also starts with 'd'. -/
theorem deconvBiasKey_empty_head (i : ℕ) :
    ((deconvBiasKey "" i).data).head? = some 'd' := by
  unfold deconvBiasKey
  rw [String.data_append, String.data_append]
  rw [List.head?_append, List.head?_append]
  rfl

/-- Claim C6 (amended): `convert_weights` produces the reindexed state dict by
updating the caller's dict in place and returning it; every entry other than
the final-convolution weight/bias and deconv-layer weight/bias entries of the
given module prefix keeps its original value in the returned dict. -/
theorem DeconvModule.convert_weights_frame (sd : StateDict) (pfx : String)
    (conversion : List ℕ) (out : StateDict)
    (h : DeconvModule.convert_weights sd pfx conversion = some out)
    (k : String) (hk1 : k ≠ finalConvWeightKey pfx)
    (hk2 : k ≠ finalConvBiasKey pfx)
    (hk3 : ∀ i, k ≠ deconvWeightKey pfx i ∧ k ≠ deconvBiasKey pfx i) :
    dictGet out k = dictGet sd k := by
  by_cases hck : containsKey sd (finalConvWeightKey pfx) = true
  · rcases hw : dictGet sd (finalConvWeightKey pfx) with _ | w
    · have hcw : DeconvModule.convert_weights sd pfx conversion = none := by
        unfold DeconvModule.convert_weights
        rw [if_pos hck]
        simp [hw]
      rw [hcw] at h
      simp at h
    · rcases htw : tIndex w conversion with _ | w'
      · have hcw : DeconvModule.convert_weights sd pfx conversion = none := by
          unfold DeconvModule.convert_weights
          rw [if_pos hck]
          simp [hw, htw]
        rw [hcw] at h
        simp at h
      · rcases hb : dictGet (dictSet sd (finalConvWeightKey pfx) w')
            (finalConvBiasKey pfx) with _ | b
        · have hcw : DeconvModule.convert_weights sd pfx conversion = none := by
            unfold DeconvModule.convert_weights
            rw [if_pos hck]
            simp [hw, htw, hb]
          rw [hcw] at h
          simp at h
        · rcases htb : tIndex b conversion with _ | b'
          · have hcw : DeconvModule.convert_weights sd pfx conversion = none := by
              unfold DeconvModule.convert_weights
              rw [if_pos hck]
              simp [hw, htw, hb, htb]
            rw [hcw] at h
            simp at h
          · have hcw : DeconvModule.convert_weights sd pfx conversion
                = some (dictSet (dictSet sd (finalConvWeightKey pfx) w')
                    (finalConvBiasKey pfx) b') := by
              unfold DeconvModule.convert_weights
              rw [if_pos hck]
              simp [hw, htw, hb, htb]
            rw [hcw] at h
            have hout : out = dictSet (dictSet sd (finalConvWeightKey pfx) w')
                (finalConvBiasKey pfx) b' := by
              simpa using h.symm
            rw [hout]
            rw [dictGet_dictSet_ne _ _ _ _ hk2]
            rw [dictGet_dictSet_ne _ _ _ _ hk1]
  · rcases hni : nextIndex sd pfx with _ | li
    · have hcw : DeconvModule.convert_weights sd pfx conversion = some sd := by
        unfold DeconvModule.convert_weights
        rw [if_neg hck, hni]
        rfl
      rw [hcw] at h
      have hout : out = sd := by simpa using h.symm
      rw [hout]
    · rcases hw : dictGet sd (deconvWeightKey pfx li) with _ | w
      · have hcw : DeconvModule.convert_weights sd pfx conversion = none := by
          unfold DeconvModule.convert_weights
          rw [if_neg hck, hni]
          simp [hw]
        rw [hcw] at h
        simp at h
      · rcases htw : tIndexDim1 w conversion with _ | w'
        · have hcw : DeconvModule.convert_weights sd pfx conversion = none := by
            unfold DeconvModule.convert_weights
            rw [if_neg hck, hni]
            simp [hw, htw]
          rw [hcw] at h
          simp at h
        · rcases hb : dictGet (dictSet sd (deconvWeightKey pfx li) w')
              (deconvBiasKey pfx li) with _ | b
          · have hcw : DeconvModule.convert_weights sd pfx conversion = none := by
              unfold DeconvModule.convert_weights
              rw [if_neg hck, hni]
              simp [hw, htw, hb]
            rw [hcw] at h
            simp at h
          · rcases htb : tIndex b conversion with _ | b'
            · have hcw : DeconvModule.convert_weights sd pfx conversion = none := by
                unfold DeconvModule.convert_weights
                rw [if_neg hck, hni]
                simp [hw, htw, hb, htb]
              rw [hcw] at h
              simp at h
            · have hcw : DeconvModule.convert_weights sd pfx conversion
                  = some (dictSet (dictSet sd (deconvWeightKey pfx li) w')
                      (deconvBiasKey pfx li) b') := by
                unfold DeconvModule.convert_weights
                rw [if_neg hck, hni]
                simp [hw, htw, hb, htb]
              rw [hcw] at h
              have hout : out
                  = dictSet (dictSet sd (deconvWeightKey pfx li) w')
                      (deconvBiasKey pfx li) b' := by
                simpa using h.symm
              rw [hout]
              rw [dictGet_dictSet_ne _ _ _ _ (hk3 li).2]
              rw [dictGet_dictSet_ne _ _ _ _ (hk3 li).1]

/-- Witness for the amended C6: an entry under an unrelated key keeps its
value across a conversion that reindexes the final convolution. -/
theorem DeconvModule.convert_weights_frame_witness :
    dictGet
        [("zz.other", Tensor.scalar 7),
         ("final_conv.weight", Tensor.vec [.scalar 2, .scalar 1]),
         ("final_conv.bias", Tensor.vec [.scalar 4, .scalar 3])]
        "zz.other"
      = dictGet
        [("zz.other", Tensor.scalar 7),
         ("final_conv.weight", Tensor.vec [.scalar 1, .scalar 2]),
         ("final_conv.bias", Tensor.vec [.scalar 3, .scalar 4])]
        "zz.other" := by
  apply DeconvModule.convert_weights_frame
      [("zz.other", Tensor.scalar 7),
       ("final_conv.weight", Tensor.vec [.scalar 1, .scalar 2]),
       ("final_conv.bias", Tensor.vec [.scalar 3, .scalar 4])] "" [1, 0]
  · rfl
  · decide
  · decide
  · intro i
    constructor
    · intro he
      have hd : "zz.other".data.head? = ((deconvWeightKey "" i).data).head? :=
        congrArg (fun s => s.data.head?) he
      rw [deconvWeightKey_empty_head] at hd
      exact absurd hd (by decide)
    · intro he
      have hd : "zz.other".data.head? = ((deconvBiasKey "" i).data).head? :=
        congrArg (fun s => s.data.head?) he
      rw [deconvBiasKey_empty_head] at hd
      exact absurd hd (by decide)

/-! ## C4 theorem -/

theorem zip_maps_flatMap_pair (f g : ℕ → ℕ) :
    ∀ l : List ℕ, ((l.map f).zip (l.map g)).flatMap (fun p => [p.1, p.2])
      = l.flatMap (fun i => [f i, g i]) := by
  intro l
  induction l with
  | nil => rfl
  | cons i l ih =>
    simp only [List.map_cons, List.zip_cons_cons, List.flatMap_cons]
    rw [ih]

/-- Claim C4: the `locref_conversion` expansion built by
`HeatmapHead.convert_weights` sends each old keypoint index `i` of the
conversion tensor to the two consecutive channel indices `2*i` and `2*i+1`,
interleaved per keypoint and then flattened; in particular `[2, 0]` expands to
exactly `[4, 5, 0, 1]`; and `HeatmapHead.convert_weights` applies the deconv
reindexing logic to the locref stack with exactly this expanded array. -/
theorem HeatmapHead.convert_weights_locref_expansion :
    (∀ conversion : List ℕ, locref_conversion conversion
        = conversion.flatMap (fun i => [2 * i, 2 * i + 1])) ∧
    locref_conversion [2, 0] = [4, 5, 0, 1] ∧
    (∀ (sd : StateDict) (pfx : String) (conversion : List ℕ),
      HeatmapHead.convert_weights sd pfx conversion
        = (DeconvModule.convert_weights sd (pfx ++ "heatmap_head.")
            conversion).bind
            (fun sd1 => DeconvModule.convert_weights sd1
              (pfx ++ "locref_head.") (locref_conversion conversion))) := by
  refine ⟨?_, by decide, fun sd pfx conversion => rfl⟩
  intro conversion
  exact zip_maps_flatMap_pair (fun i => 2 * i) (fun i => 2 * i + 1) conversion

/-! ## `DeconvModule` construction and forward (simple_head.py lines 89-169) -/

/-- The configuration dict for the optional plain convolution appended after
the deconvolutional layers; the code documents and reads the keys
`"out_channels"` and `"kernel_size"`. -/
structure FinalConvCfg where
  out_channels : ℕ
  kernel_size : ℕ

/-- One element of the `nn.Sequential` built by `_make_layers`: a
`nn.ConvTranspose2d` (with the initial parameters the tensor library sampled
at construction) or a `nn.ReLU`. -/
inductive DLayer where
  | convT : ℕ → ℕ → ℕ → ℕ → Tensor → Tensor → DLayer
  | relu : DLayer

/-- The constructed final `nn.Conv2d` (stride 1), with its sampled initial
parameters. -/
structure FinalConv where
  in_channels : ℕ
  out_channels : ℕ
  kernel_size : ℕ
  weight : Tensor
  bias : Tensor

/-- The constructed `DeconvModule`: `deconv_layers` is `nn.Identity()` exactly
when the list is empty and `final_conv` is `nn.Identity()` exactly when it is
`none`. -/
structure DeconvModule where
  deconv_layers : List DLayer
  final_conv : Option FinalConv

/-- The loop body of `DeconvModule._make_layers`: one ConvTranspose2d plus one
ReLU per (out-channels, kernel, stride) triple, threading `in_channels`.  The
`winit` argument supplies the parameters the tensor library samples for the
layer at each position. -/
def makeLayersAux (in_channels : ℕ) : List ℕ → List ℕ → List ℕ →
    (ℕ → Tensor × Tensor) → ℕ → List DLayer
  | o :: os, k :: ks, s :: ss, winit, idx =>
    .convT in_channels o k s (winit idx).1 (winit idx).2 :: .relu ::
      makeLayersAux o os ks ss winit (idx + 1)
  | _, _, _, _, _ => []

/-- Embeds `DeconvModule._make_layers`: the interleaved layer list with the
trailing ReLU dropped (`layers[:-1]`). -/
def DeconvModule._make_layers (in_channels : ℕ) (out_channels : List ℕ)
    (kernel_sizes strides : List ℕ) (winit : ℕ → Tensor × Tensor) :
    List DLayer :=
  (makeLayersAux in_channels out_channels kernel_sizes strides winit 0).dropLast

/-- Embeds `DeconvModule.__init__`.  Construction raises ValueError (the
configuration error) iff the chained comparison
`len(channels) == len(kernel_size) + 1 == len(strides) + 1` fails; otherwise
the deconv stack is built when `len(kernel_size) > 0` (identity otherwise) and
the final convolution when a config is supplied.  The `winit`/`fcinit`
arguments carry the initial parameters the tensor library samples for the
constructed layers. -/
def DeconvModule.init (channels kernel_size strides : List ℕ)
    (final_conv : Option FinalConvCfg) (winit : ℕ → Tensor × Tensor)
    (fcinit : Tensor × Tensor) : Except String DeconvModule :=
  if ¬(channels.length = kernel_size.length + 1 ∧
      kernel_size.length + 1 = strides.length + 1) then
    .error "Incorrect DeconvModule configuration"
  else
    .ok
      { deconv_layers :=
          if kernel_size.length > 0 then
            DeconvModule._make_layers (channels.headD 0) (channels.drop 1)
              kernel_size strides winit
          else [],
        final_conv := final_conv.map (fun cfg =>
          { in_channels := channels.getLastD 0,
            out_channels := cfg.out_channels,
            kernel_size := cfg.kernel_size,
            weight := fcinit.1, bias := fcinit.2 }) }

/-- Pointwise map over a tensor of the given depth (`tMapD 2` maps over an
(H, W) grid), `none` on any other shape. -/
def tMapD : ℕ → (ℤ → ℤ) → Tensor → Option Tensor
  | 0, f, .scalar z => some (.scalar (f z))
  | d + 1, f, .vec ts => (ts.mapM (tMapD d f)).map Tensor.vec
  | _, _, _ => none

/-- Pointwise combination of two tensors of the given depth and equal shape,
`none` otherwise. -/
def tZipD : ℕ → (ℤ → ℤ → ℤ) → Tensor → Tensor → Option Tensor
  | 0, f, .scalar a, .scalar b => some (.scalar (f a b))
  | d + 1, f, .vec as, .vec bs =>
    if as.length = bs.length then
      ((as.zip bs).mapM (fun p => tZipD d f p.1 p.2)).map Tensor.vec
    else none
  | _, _, _, _ => none

/-- Modelled from the tensor library's documented `Conv2d` semantics for a
1x1 kernel with stride 1 on an unbatched (C, H, W) input — the only
configuration the theorems below evaluate: output channel `o` is the
per-pixel affine map `bias[o] + sum of weight[o][c][0][0] * x[c]` over input
channels `c`.  Larger spatial kernels are numerical-kernel territory the spec
declares out of scope, left unevaluated by `applyFinalConv`. -/
def conv1x1 (w b x : Tensor) : Option Tensor :=
  match w, b, x with
  | .vec os, .vec bs, .vec xs =>
    if os.length = bs.length then
      ((os.zip bs).mapM (fun (p : Tensor × Tensor) => do
        let bo : ℤ ← (match p.2 with
          | .scalar z => some z
          | _ => none : Option ℤ)
        let cs : List Tensor ← (match p.1 with
          | .vec cs => some cs
          | _ => none : Option (List Tensor))
        if cs.length = xs.length then do
          let ws : List ℤ ← cs.mapM (fun (c : Tensor) =>
            (match c with
              | .vec [.vec [.scalar v]] => some v
              | _ => none : Option ℤ))
          let x0 : Tensor ← xs.head?
          let base : Tensor ← tMapD 2 (fun _ => bo) x0
          (ws.zip xs).foldlM (fun (acc : Tensor) (q : ℤ × Tensor) => do
            let sc : Tensor ← tMapD 2 (fun z => q.1 * z) q.2
            tZipD 2 (fun u v => u + v) acc sc) base
        else none)).map Tensor.vec
    else none
  | _, _, _ => none

/-- Modelled from the tensor library's documented `ConvTranspose2d` semantics
for a 1x1 kernel with stride 1 on an unbatched input: the same per-pixel
affine map as `conv1x1`, with the (in-channels, out-channels, 1, 1) weight
layout, so output channel `o` uses `weight[c][o][0][0]`. -/
def convT1x1 (w b x : Tensor) : Option Tensor :=
  match w, b, x with
  | .vec cs, .vec bs, .vec xs =>
    if cs.length = xs.length then
      ((List.range bs.length).mapM (fun (o : ℕ) => do
        let bo : ℤ ← (match bs[o]? with
          | some (.scalar z) => some z
          | _ => none : Option ℤ)
        let ws : List ℤ ← cs.mapM (fun (c : Tensor) =>
          (match c with
            | .vec os =>
              (match os[o]? with
                | some (.vec [.vec [.scalar v]]) => some v
                | _ => none : Option ℤ)
            | _ => none : Option ℤ))
        let x0 : Tensor ← xs.head?
        let base : Tensor ← tMapD 2 (fun _ => bo) x0
        (ws.zip xs).foldlM (fun (acc : Tensor) (q : ℤ × Tensor) => do
          let sc : Tensor ← tMapD 2 (fun z => q.1 * z) q.2
          tZipD 2 (fun u v => u + v) acc sc) base)).map Tensor.vec
    else none
  | _, _, _ => none

/-- Application of one stack element through the external tensor library,
modelled for the shapes the theorems below evaluate: ReLU is the pointwise
max-with-0 on an unbatched (C, H, W) tensor, and 1x1 stride-1 transposed
convolutions are per-pixel affine maps across channels; larger spatial
kernels are outside the spec's scope and left unevaluated. -/
def applyDLayer : DLayer → Tensor → Option Tensor
  | .relu, x => tMapD 3 (fun z => max z 0) x
  | .convT _ _ k s w b, x => if k = 1 ∧ s = 1 then convT1x1 w b x else none

/-- The final convolution applied through the external tensor library (see
`conv1x1`). -/
def applyFinalConv (fc : FinalConv) (x : Tensor) : Option Tensor :=
  if fc.kernel_size = 1 then conv1x1 fc.weight fc.bias x else none

/-- Embeds `DeconvModule.forward`: `x = self.deconv_layers(x)` — the
sequential application of the stack, the identity for the empty stack —
followed by `x = self.final_conv(x)` — the identity when no final convolution
was configured. -/
def DeconvModule.forward (m : DeconvModule) (x : Tensor) : Option Tensor := do
  let x1 ← m.deconv_layers.foldlM (fun acc l => applyDLayer l acc) x
  match m.final_conv with
  | none => pure x1
  | some fc => applyFinalConv fc x1

/-! ## C8 theorem -/

/-- Claim C8: `DeconvModule` construction fails with a configuration error
exactly when `len(channels) != len(kernel_size) + 1` or
`len(channels) != len(strides) + 1`; for all configs with matched lengths
construction succeeds without raising. -/
theorem DeconvModule.init_error_iff (channels kernel_size strides : List ℕ)
    (final_conv : Option FinalConvCfg) (winit : ℕ → Tensor × Tensor)
    (fcinit : Tensor × Tensor) :
    (∃ e, DeconvModule.init channels kernel_size strides final_conv winit fcinit
        = .error e)
      ↔ (channels.length ≠ kernel_size.length + 1 ∨
         channels.length ≠ strides.length + 1) := by
  unfold DeconvModule.init
  by_cases h : channels.length = kernel_size.length + 1 ∧
      kernel_size.length + 1 = strides.length + 1
  · rw [if_neg (by simpa using h)]
    constructor
    · rintro ⟨e, he⟩
      exact absurd he (by simp)
    · intro hor
      exfalso
      rcases hor with h1 | h2
      · exact h1 h.1
      · exact h2 (by omega)
  · rw [if_pos h]
    constructor
    · intro _
      by_cases h1 : channels.length = kernel_size.length + 1
      · right
        intro h2
        exact h ⟨h1, by omega⟩
      · left
        exact h1
    · intro _
      exact ⟨"Incorrect DeconvModule configuration", rfl⟩

/-! ## C9 theorems -/

/-- Claim C9 counterexample: the config `channels = [1]`, `kernel_size = []`,
`strides = []` satisfies the matched-length conditions with
`len(kernel_size) == 0`, yet when a final convolution (out_channels 2,
kernel_size 1, zero-initialized parameters) is part of the config, the
constructed stack's forward maps the 1-channel 1x1 input of value 1 to a
2-channel zero output — not the identity — refuting the claim for
configurations that carry a final convolution. -/
theorem DeconvModule.forward_not_identity_counterexample :
    DeconvModule.init [1] [] [] (some ⟨2, 1⟩)
        (fun _ => (Tensor.scalar 0, Tensor.scalar 0))
        (Tensor.vec [.vec [.vec [.vec [.scalar 0]]],
                     .vec [.vec [.vec [.scalar 0]]]],
         Tensor.vec [.scalar 0, .scalar 0])
      = Except.ok
          { deconv_layers := [],
            final_conv := some
              { in_channels := 1, out_channels := 2, kernel_size := 1,
                weight := Tensor.vec [.vec [.vec [.vec [.scalar 0]]],
                                      .vec [.vec [.vec [.scalar 0]]]],
                bias := Tensor.vec [.scalar 0, .scalar 0] } } ∧
    DeconvModule.forward
        { deconv_layers := [],
          final_conv := some
            { in_channels := 1, out_channels := 2, kernel_size := 1,
              weight := Tensor.vec [.vec [.vec [.vec [.scalar 0]]],
                                    .vec [.vec [.vec [.scalar 0]]]],
              bias := Tensor.vec [.scalar 0, .scalar 0] } }
        (Tensor.vec [.vec [.vec [.scalar 1]]])
      ≠ some (Tensor.vec [.vec [.vec [.scalar 1]]]) := by
  constructor
  · rfl
  · intro h
    have hf : DeconvModule.forward
        { deconv_layers := [],
          final_conv := some
            { in_channels := 1, out_channels := 2, kernel_size := 1,
              weight := Tensor.vec [.vec [.vec [.vec [.scalar 0]]],
                                    .vec [.vec [.vec [.scalar 0]]]],
              bias := Tensor.vec [.scalar 0, .scalar 0] } }
        (Tensor.vec [.vec [.vec [.scalar 1]]])
        = some (Tensor.vec [.vec [.vec [.scalar 0]],
                            .vec [.vec [.scalar 0]]]) := rfl
    rw [hf] at h
    simp at h

/-- Claim C9 (amended): for deconvolution-stack configs with matched lengths,
an empty kernel list, and no final-convolution config, the constructed stack's
forward is the identity on its input tensor. -/
theorem DeconvModule.forward_identity (channels : List ℕ)
    (winit : ℕ → Tensor × Tensor) (fcinit : Tensor × Tensor)
    (m : DeconvModule)
    (hinit : DeconvModule.init channels [] [] none winit fcinit = .ok m)
    (x : Tensor) : m.forward x = some x := by
  unfold DeconvModule.init at hinit
  by_cases h : channels.length = List.length ([] : List ℕ) + 1 ∧
      List.length ([] : List ℕ) + 1 = List.length ([] : List ℕ) + 1
  · rw [if_neg (by simpa using h)] at hinit
    have hm : m = { deconv_layers := [], final_conv := none } := by
      simpa using hinit.symm
    subst hm
    unfold DeconvModule.forward
    simp
  · rw [if_pos (by simpa using h)] at hinit
    exact absurd hinit (by simp)

/-- Witness for the amended C9: the config `channels = [7]`, empty kernel and
stride lists, no final convolution, builds the identity stack. -/
theorem DeconvModule.forward_identity_witness :
    DeconvModule.forward { deconv_layers := [], final_conv := none }
        (Tensor.vec [.scalar 3, .scalar 4])
      = some (Tensor.vec [.scalar 3, .scalar 4]) :=
  DeconvModule.forward_identity [7]
    (fun _ => (Tensor.scalar 0, Tensor.scalar 0))
    (Tensor.scalar 0, Tensor.scalar 0)
    { deconv_layers := [], final_conv := none } rfl
    (Tensor.vec [.scalar 3, .scalar 4])

/-! ## `PoseModel.build` backbone-config handling (model.py lines 151-154) -/

/-- A configuration-tree value: a scalar or a nested mapping (the shapes the
backbone config handling touches). -/
inductive CfgVal where
  | bool : Bool → CfgVal
  | str : String → CfgVal
  | num : ℤ → CfgVal
  | dict : List (String × CfgVal) → CfgVal

/-- Modelled from the spec: the `WeightInitialization` value object
(`deeplabcut/core/weight_init.py` is not among the sources) carries a dataset
identifier, a `with_decoder` flag, and a conversion array; the build routines
only ever read these fields. -/
structure WeightInitialization where
  dataset : String
  with_decoder : Bool
  conversion_array : List ℕ

/-- The `if weight_init is None: cfg["backbone"]["pretrained"] = True` step at
the top of `PoseModel.build`: Python updates the nested backbone dict inside
the caller's config; `none` stands for the KeyError/TypeError raised when
`cfg["backbone"]` is absent or not a dict. -/
def PoseModel.build_cfg_step (cfg : List (String × CfgVal))
    (weight_init : Option WeightInitialization) :
    Option (List (String × CfgVal)) :=
  match weight_init with
  | some _ => some cfg
  | none =>
    match dictGet cfg "backbone" with
    | some (.dict d) =>
      some (dictSet cfg "backbone" (.dict (dictSet d "pretrained" (.bool true))))
    | _ => none

/-- The argument `PoseModel.build` passes to `BACKBONES.build` right after the
pretrained-flag step: `dict(cfg["backbone"])`, a shallow copy of the backbone
sub-dict of the possibly-updated config. -/
def PoseModel.build_backbone_arg (cfg : List (String × CfgVal))
    (weight_init : Option WeightInitialization) :
    Option (List (String × CfgVal)) := do
  let cfg1 ← PoseModel.build_cfg_step cfg weight_init
  match dictGet cfg1 "backbone" with
  | some (.dict d) => some d
  | _ => none

/-! ## C7 theorem -/

/-- Claim C7: `PoseModel.build` with `weight_init = None` forces the
backbone's `pretrained` flag true before building the backbone — the config
handed to the backbone registry carries `pretrained = True` whatever the
caller configured — while with a `weight_init` supplied the backbone config is
passed through exactly as configured. -/
theorem PoseModel.build_pretrained_flag (cfg : List (String × CfgVal))
    (d : List (String × CfgVal))
    (hb : dictGet cfg "backbone" = some (.dict d)) :
    (PoseModel.build_backbone_arg cfg none
        = some (dictSet d "pretrained" (.bool true)) ∧
      dictGet (dictSet d "pretrained" (.bool true)) "pretrained"
        = some (.bool true)) ∧
    (∀ wi, PoseModel.build_backbone_arg cfg (some wi) = some d) := by
  refine ⟨⟨?_, dictGet_dictSet_self d "pretrained" (.bool true)⟩, ?_⟩
  · unfold PoseModel.build_backbone_arg PoseModel.build_cfg_step
    rw [hb]
    simp [dictGet_dictSet_self]
  · intro wi
    unfold PoseModel.build_backbone_arg PoseModel.build_cfg_step
    simp [hb]

/-- Witness for C7: a backbone config with `pretrained = False`; built with no
weight initialization the flag is forced true, and with one supplied it stays
as configured. -/
theorem PoseModel.build_pretrained_flag_witness :
    (PoseModel.build_backbone_arg
        [("backbone", CfgVal.dict
          [("model_name", CfgVal.str "resnet50"),
           ("pretrained", CfgVal.bool false)])] none
      = some (dictSet [("model_name", CfgVal.str "resnet50"),
          ("pretrained", CfgVal.bool false)] "pretrained" (.bool true)) ∧
      dictGet (dictSet [("model_name", CfgVal.str "resnet50"),
          ("pretrained", CfgVal.bool false)] "pretrained" (.bool true))
          "pretrained" = some (.bool true)) ∧
    (∀ wi, PoseModel.build_backbone_arg
        [("backbone", CfgVal.dict
          [("model_name", CfgVal.str "resnet50"),
           ("pretrained", CfgVal.bool false)])] (some wi)
      = some [("model_name", CfgVal.str "resnet50"),
              ("pretrained", CfgVal.bool false)]) :=
  PoseModel.build_pretrained_flag
    [("backbone", CfgVal.dict
      [("model_name", CfgVal.str "resnet50"),
       ("pretrained", CfgVal.bool false)])]
    [("model_name", CfgVal.str "resnet50"), ("pretrained", CfgVal.bool false)]
    rfl

/-! ## `_build_detector` (detectors/base.py lines 23-50) -/

/-- A detector as `_build_detector` observes it: the config its constructor
received and its current parameter state (`load_state_dict` with the default
`strict=True` replaces the parameters wholesale). -/
structure Detector where
  built_from : List (String × CfgVal)
  params : StateDict

/-- Embeds `_build_detector(cfg, weight_init)` from `detectors/base.py`.  The
registry construction (`build_from_cfg`), the modelzoo path resolution
(`get_config_model_paths`, whose fourth component is the detector snapshot
path) and the snapshot loading (`torch.load(...)["model"]`) live outside the
embedded sources, so they enter as function arguments, composed exactly as the
code composes them: with a weight initialization supplied, `cfg["pretrained"]`
is set to False before construction, and after construction the detector's
parameters are overwritten from the snapshot resolved with the dataset name
and the hard-coded `pose_model_type="hrnetw32"`,
`detector_type="fasterrcnn"`. -/
def build_detector
    (build_from_cfg : List (String × CfgVal) → StateDict)
    (get_config_model_paths : String → String → String → String)
    (load_model : String → StateDict)
    (cfg : List (String × CfgVal))
    (weight_init : Option WeightInitialization) : Detector :=
  let cfg2 := match weight_init with
    | some _ => dictSet cfg "pretrained" (.bool false)
    | none => cfg
  let detector : Detector := ⟨cfg2, build_from_cfg cfg2⟩
  match weight_init with
  | none => detector
  | some wi =>
    { detector with
        params := load_model
          (get_config_model_paths wi.dataset "hrnetw32" "fasterrcnn") }

/-! ## C10 theorem -/

/-- Claim C10: when `_build_detector` is given a `WeightInitialization`, the
`pretrained` flag in the detector config is forced false before the detector
is built (the constructor receives the updated config), and afterwards the
detector's full parameter state is overwritten from the snapshot resolved
from the dataset name together with the hard-coded sentinel values
`"hrnetw32"` and `"fasterrcnn"`, whatever the configured architecture was —
and this holds for every registry constructor, path resolver and snapshot
loader. -/
theorem build_detector_weight_init
    (build_from_cfg : List (String × CfgVal) → StateDict)
    (get_config_model_paths : String → String → String → String)
    (load_model : String → StateDict)
    (cfg : List (String × CfgVal)) (wi : WeightInitialization) :
    (build_detector build_from_cfg get_config_model_paths load_model cfg
        (some wi)).built_from = dictSet cfg "pretrained" (.bool false) ∧
    dictGet (build_detector build_from_cfg get_config_model_paths load_model
        cfg (some wi)).built_from "pretrained" = some (.bool false) ∧
    (build_detector build_from_cfg get_config_model_paths load_model cfg
        (some wi)).params
      = load_model (get_config_model_paths wi.dataset "hrnetw32" "fasterrcnn") := by
  refine ⟨rfl, ?_, rfl⟩
  exact dictGet_dictSet_self cfg "pretrained" (.bool false)
